import Mathlib

/-!
Verification of the locavox per-topic hybrid message store against its
specification.  The Python source (backend/locavox) is shallowly embedded:
pure functions become Lean functions, the database / pandas / pydantic /
numpy layers become explicit parameters (query outcomes as `Except` values,
json parsing as an `Option`-valued function, pydantic acceptance as a
boolean predicate), and float scores become rationals.  Python strings are
modelled as `List Char`.
-/

namespace Locavox

/-- Metadata documents (Python: a JSON object / `dict`), modelled as an
association list.  The empty document `{}` is `[]`. -/
def Md : Type := List (String × String)

instance : DecidableEq Md := by
  unfold Md
  infer_instance

/-- Python `str.split()` with no separator: split on runs of whitespace,
dropping empty pieces.  `acc` holds the current word reversed. -/
def splitWordsAux : List Char → List Char → List (List Char)
  | [], acc => if acc = [] then [] else [acc.reverse]
  | c :: cs, acc =>
    if c.isWhitespace then
      if acc = [] then splitWordsAux cs [] else acc.reverse :: splitWordsAux cs []
    else splitWordsAux cs (c :: acc)

/-- Python `s.split()` (whitespace words of `s`). -/
def pyWords (s : List Char) : List (List Char) := splitWordsAux s []

/-- Python `s.lower()` (per-character, as in the ASCII model). -/
def pyLower (s : List Char) : List Char := s.map Char.toLower

/-- Python substring containment `needle in hay` (contiguous). -/
def listContainsSub (needle hay : List Char) : Bool :=
  hay.tails.any (fun t => needle.isPrefixOf t)

/-- `TopicStorage._text_search_score` (storage.py:434-457), with float scores
as rationals.  Substring containment and the position-0 test mirror Python
`query_lower in content_lower` and `content_lower.index(query_lower) == 0`
(the first occurrence is at 0 exactly when the query is a prefix of the
content).  Note the single-word branch tests membership of the whole
lowercased query string `query_lower`, not of its single word. -/
def textSearchScore (content query : List Char) : ℚ :=
  let cl := pyLower content
  let ql := pyLower query
  let qws := pyWords ql
  if listContainsSub ql cl then
    if ql.isPrefixOf cl then 1 else 9/10
  else if qws.length = 1 then
    if (pyWords cl).contains ql then 1 else 0
  else
    let cws := pyWords cl
    let nMatches := (qws.filter (fun w => cws.contains w)).length
    if 0 < nMatches then (nMatches : ℚ) / (qws.length : ℚ) else 0

/-- The spec's reference definition of `textScore` (spec §4.3), as worded:
the single-word branch asks whether *that word* (the unique whitespace-split
token of the query) occurs among the content's words. -/
def textScoreSpec (content query : List Char) : ℚ :=
  let cl := pyLower content
  let ql := pyLower query
  let qws := pyWords ql
  if listContainsSub ql cl then
    if ql.isPrefixOf cl then 1 else 9/10
  else if qws.length = 1 then
    if (pyWords cl).contains (qws.headD []) then 1 else 0
  else
    let cws := pyWords cl
    let nMatches := (qws.filter (fun w => cws.contains w)).length
    if 0 < nMatches then (nMatches : ℚ) / (qws.length : ℚ) else 0

/-- The reference definition amended at the single-word branch: the score is
1.0 exactly when the full lowercased query string (including any surrounding
whitespace, which is what the code compares) occurs verbatim among the
content's whitespace-split words.  Stated with propositional substring /
membership relations, structured as the spec words it. -/
def textScoreSpecAmended (content query : List Char) : ℚ :=
  let cl := pyLower content
  let ql := pyLower query
  let qws := pyWords ql
  if ql <+: cl then 1
  else if ql <:+: cl then 9/10
  else if qws.length = 1 then
    if ql ∈ pyWords cl then 1 else 0
  else if (qws.filter (fun w => w ∈ pyWords cl)).length = 0 then 0
  else ((qws.filter (fun w => w ∈ pyWords cl)).length : ℚ) / (qws.length : ℚ)

/-- A pydantic `Message` (base_models.py): `id`, `content`, `userId`,
`timestamp` (microsecond instants, modelled as `Int`), `metadata` (a JSON
document).  The `embedding` extra passed in search is ignored by pydantic
and so does not appear. -/
structure Message where
  id : List Char
  content : List Char
  userId : List Char
  timestamp : Int
  metadata : Md
deriving DecidableEq

/-- A raw stored row of the lancedb `messages` table (schema at
storage.py:40-52): `metadata` is the JSON-encoded string, `vector` the
stored float32 list (floats as rationals). -/
structure Row where
  id : List Char
  content : List Char
  userId : List Char
  timestamp : Int
  metadata : List Char
  vector : List ℚ
deriving DecidableEq

/-- Row-to-`Message` conversion used on the read paths of storage.py: the
metadata string is JSON-decoded (`parse` models `json.loads`) and a decode
failure is replaced by the empty document `{}`. -/
def rowToMessage (parse : List Char → Option Md) (r : Row) : Message :=
  { id := r.id, content := r.content, userId := r.userId,
    timestamp := r.timestamp, metadata := (parse r.metadata).getD [] }

/-- Sorting key of `get_messages`: timestamp descending. -/
def tsGe (a b : Row) : Prop := b.timestamp ≤ a.timestamp

instance : DecidableRel tsGe := fun a b =>
  inferInstanceAs (Decidable (b.timestamp ≤ a.timestamp))

instance : IsTotal Row tsGe := ⟨fun a b => le_total b.timestamp a.timestamp⟩

instance : IsTrans Row tsGe := ⟨fun _ _ _ hab hbc => le_trans hbc hab⟩

/-- Timestamp-descending order on converted messages (for stating the
sortedness of `get_messages` output). -/
def msgTsGe (a b : Message) : Prop := b.timestamp ≤ a.timestamp

/-- Final-score-descending order used by the vector stage of
`search_messages` (pandas `sort_values(ascending=False)`; the source sort is
unstable, so only the ordering by score is meaningful, and the model uses a
stable sort as one concrete choice). -/
def scoreGe (a b : Row × ℚ) : Prop := b.2 ≤ a.2

instance : DecidableRel scoreGe := fun a b =>
  inferInstanceAs (Decidable (b.2 ≤ a.2))

instance : IsTotal (Row × ℚ) scoreGe := ⟨fun a b => le_total b.2 a.2⟩

instance : IsTrans (Row × ℚ) scoreGe := ⟨fun _ _ _ hab hbc => le_trans hbc hab⟩

/-- `TopicStorage.get_messages` (storage.py:288-340): all rows sorted by
timestamp descending, truncated to `limit`, each surviving row converted to
a `Message`.  `parse` models `json.loads` on the metadata string (the
`if result["metadata"]` truthiness guard is folded into it, since decoding
an empty string also fails); `valid` models pydantic acceptance of
`Message(**result)` — a rejected row is skipped individually. -/
def getMessages (parse : List Char → Option Md) (valid : Row → Bool)
    (rows : List Row) (limit : Nat) : List Message :=
  ((List.insertionSort tsGe rows).take limit).filterMap fun r =>
    if valid r then some (rowToMessage parse r) else none

/-- The per-row final scores of the vector stage of `search_messages`
(storage.py:245-265), reproducing the pandas index alignment of
`df["vector_score"] = 1 - vector_results["_distance"]`: `vector_results`
is the store's nearest-neighbour result, sorted by distance ascending with
a fresh positional index, so the row at position `i` of the table (storage
order) is assigned one minus the `i`-th *smallest* distance, not the
distance of its own vector.  `embed` models the embedding generator and
`dist` the store's metric (cosine in the source). -/
def vectorFinals (embed : List Char → List ℚ) (dist : List ℚ → List ℚ → ℚ)
    (rows : List Row) (query : List Char) : List (Row × ℚ) :=
  let qv := embed query
  let dists := List.insertionSort (fun a b : ℚ => a ≤ b)
    (rows.map fun r => dist qv r.vector)
  ((rows.map fun r => (r, textSearchScore r.content query)).zip dists).map
    fun p => (p.1.1, p.1.2 * (7/10) + (1 - p.2) * (3/10))

/-- The claim's reading of the vector stage: each message's `vectorScore` is
one minus the distance between the query embedding and *that same message's*
stored vector. -/
def vectorFinalsAligned (embed : List Char → List ℚ)
    (dist : List ℚ → List ℚ → ℚ) (rows : List Row) (query : List Char) :
    List (Row × ℚ) :=
  let qv := embed query
  rows.map fun r =>
    (r, textSearchScore r.content query * (7/10) + (1 - dist qv r.vector) * (3/10))

/-- `TopicStorage.search_messages` (storage.py:210-286).  An empty table
returns `[]`.  Exact matches (text score strictly above 0.8) are returned in
storage order, truncated to `limit`, skipping the vector stage.  Otherwise
the vector stage keeps final scores `>= 0.1`, sorts descending and
truncates.  (With a nonempty table the search over all `len(df)` rows is
nonempty, so the source's `if not vector_results.empty` guard is taken.) -/
def searchMessages (embed : List Char → List ℚ) (dist : List ℚ → List ℚ → ℚ)
    (parse : List Char → Option Md) (rows : List Row) (query : List Char)
    (limit : Nat) : List Message :=
  if rows = [] then []
  else
    let exact := (rows.map fun r => (r, textSearchScore r.content query)).filter
      fun p => (8 : ℚ)/10 < p.2
    if exact ≠ [] then
      (exact.take limit).map fun p => rowToMessage parse p.1
    else
      let ranked := List.insertionSort scoreGe
        ((vectorFinals embed dist rows query).filter fun p => (1 : ℚ)/10 ≤ p.2)
      (ranked.take limit).map fun p => rowToMessage parse p.1

/-- `search_messages` as the claim reads it: identical pipeline but with the
per-message aligned vector scores of `vectorFinalsAligned`. -/
def searchMessagesAligned (embed : List Char → List ℚ)
    (dist : List ℚ → List ℚ → ℚ) (parse : List Char → Option Md)
    (rows : List Row) (query : List Char) (limit : Nat) : List Message :=
  if rows = [] then []
  else
    let exact := (rows.map fun r => (r, textSearchScore r.content query)).filter
      fun p => (8 : ℚ)/10 < p.2
    if exact ≠ [] then
      (exact.take limit).map fun p => rowToMessage parse p.1
    else
      let ranked := List.insertionSort scoreGe
        ((vectorFinalsAligned embed dist rows query).filter
          fun p => (1 : ℚ)/10 ≤ p.2)
      (ranked.take limit).map fun p => rowToMessage parse p.1

/-- Per-row processing of tier 1 of `get_messages_by_user`
(storage.py:368-381): metadata decode failure is replaced by `{}` (inner
`try`), a row pydantic rejects is skipped (outer per-row `try`). -/
def processRowTier1 (parse : List Char → Option Md) (valid : Row → Bool)
    (r : Row) : Option Message :=
  if valid r then some (rowToMessage parse r) else none

/-- Per-row processing of tier 2 (storage.py:400-408): here `json.loads` is
*not* wrapped in its own `try`, so a metadata decode failure is caught by
the per-row handler and the row is skipped (no `{}` replacement). -/
def processRowTier2 (parse : List Char → Option Md) (valid : Row → Bool)
    (r : Row) : Option Message :=
  if valid r then (parse r.metadata).map fun md =>
    { id := r.id, content := r.content, userId := r.userId,
      timestamp := r.timestamp, metadata := md }
  else none

/-- Tier 3 of `get_messages_by_user` (storage.py:417-428): fetch up to 1000
recent messages via `get_messages`, filter by `userId` in memory, truncate
to `limit`. -/
def fullScanByUser (parse : List Char → Option Md) (valid : Row → Bool)
    (recentRows : List Row) (userId : List Char) (limit : Nat) :
    List Message :=
  ((getMessages parse valid recentRows 1000).filter
    fun m => m.userId = userId).take limit

/-- `TopicStorage.get_messages_by_user` (storage.py:342-432).  The two
indexed `where`-query attempts are modelled by their outcomes `tier1` and
`tier2` (`Except` values: the underlying index may not exist).  Control
flow of the source: a tier-1 success returns immediately — returning `[]`
when the result frame is empty (storage.py:362-366); only a tier-1 *error*
reaches tier 2; a tier-2 success with a nonempty frame returns, while a
tier-2 empty frame or error falls through to the in-memory full scan. -/
def getMessagesByUser (parse : List Char → Option Md) (valid : Row → Bool)
    (tier1 tier2 : Except Unit (List Row)) (recentRows : List Row)
    (userId : List Char) (limit : Nat) : List Message :=
  match tier1 with
  | .ok df =>
    if df = [] then []
    else df.filterMap (processRowTier1 parse valid)
  | .error _ =>
    match tier2 with
    | .ok df =>
      if df ≠ [] then df.filterMap (processRowTier2 parse valid)
      else fullScanByUser parse valid recentRows userId limit
    | .error _ => fullScanByUser parse valid recentRows userId limit

/-- A topic handle as the rate limiter sees it (`topic.get_messages_by_user`
and `topic.get_messages`): each call either returns a message list or
raises. -/
structure TopicM where
  byUser : List Char → Nat → Except Unit (List Message)
  recent : Nat → Except Unit (List Message)

/-- The length of a successful `get_messages_by_user` call; a raising topic
contributes zero. -/
def byUserLen (userId : List Char) (lim : Nat) (t : TopicM) : Nat :=
  match t.byUser userId lim with
  | .ok msgs => msgs.length
  | .error _ => 0

/-- First loop of `count_user_messages` (services/message_service.py:78-98
and main.py:132-152): per topic, add the count of
`get_messages_by_user(user_id, current_limit + 1)`; a failing topic is
logged and skipped; after each *successful* topic, return the running total
as soon as it reaches the limit.  `.error n` is the early return with value
`n`, `.ok total` the completed loop. -/
def countLoop1 (userId : List Char) (lim : Nat) :
    List (String × TopicM) → Nat → Except Nat Nat
  | [], total => .ok total
  | (_, t) :: rest, total =>
    match t.byUser userId (lim + 1) with
    | .ok msgs =>
      let total' := total + msgs.length
      if lim ≤ total' then .error total' else countLoop1 userId lim rest total'
    | .error _ => countLoop1 userId lim rest total

/-- Manual double-check loop of `count_user_messages`
(message_service.py:100-117, main.py:154-170): per topic, fetch up to 1000
recent messages, filter by user in memory; a failing topic is skipped;
after each successful topic, return the running manual count as soon as it
reaches the limit. -/
def manualLoop (userId : List Char) (lim : Nat) :
    List (String × TopicM) → Nat → Except Nat Nat
  | [], mc => .ok mc
  | (_, t) :: rest, mc =>
    match t.recent 1000 with
    | .ok msgs =>
      let mc' := mc + (msgs.filter fun m => m.userId = userId).length
      if lim ≤ mc' then .error mc' else manualLoop userId lim rest mc'
    | .error _ => manualLoop userId lim rest mc

/-- `count_user_messages` (services/message_service.py:62-119; the copy in
main.py:119-173 is identical up to the registry access).  The active limit
is the test override if supplied, else the configured limit.  The manual
double-check runs only when the completed optimistic total satisfies
`total_count >= current_limit - 2` (over integers; written here as
`lim ≤ total + 2`).  If the manual loop never reaches the limit its count
is discarded and the optimistic total is returned. -/
def countUserMessages (topics : List (String × TopicM)) (configLimit : Nat)
    (userId : List Char) (testLimit : Option Nat) : Nat :=
  let lim := testLimit.getD configLimit
  match countLoop1 userId lim topics 0 with
  | .error n => n
  | .ok total =>
    if lim ≤ total + 2 then
      match manualLoop userId lim topics 0 with
      | .error mc => mc
      | .ok _ => total
    else total

/-- `count_user_messages` as claim C6 words the manual pass: a full manual
pass over every topic, whose count replaces the optimistic total only when
it strictly exceeds the limit. -/
def countUserMessagesSpec (topics : List (String × TopicM))
    (configLimit : Nat) (userId : List Char) (testLimit : Option Nat) : Nat :=
  let lim := testLimit.getD configLimit
  match countLoop1 userId lim topics 0 with
  | .error n => n
  | .ok total =>
    if lim ≤ total + 2 then
      let mc := (topics.map fun p =>
        match p.2.recent 1000 with
        | .ok msgs => (msgs.filter fun m => m.userId = userId).length
        | .error _ => 0).sum
      if lim < mc then mc else total
    else total

/-- The write-path gate of `POST /topics/.../messages` (main.py:176-242):
`count_user_messages` is evaluated immediately before appending; when the
count reaches the active limit the request is rejected with HTTP 429 and
nothing is appended, otherwise the message is appended to the target
topic's store (`store`). -/
def addMessageEndpoint (topics : List (String × TopicM)) (configLimit : Nat)
    (testLimit : Option Nat) (m : Message) (store : List Message) :
    Except Nat (List Message) :=
  let userMessageCount := countUserMessages topics configLimit m.userId testLimit
  let lim := testLimit.getD configLimit
  if lim ≤ userMessageCount then .error 429
  else .ok (store ++ [m])

/-- `TopicStorage.add_message` (storage.py:172-208): generate the embedding
of the content, raise `ValueError` when its length differs from the topic's
configured dimension (before anything is written), else append exactly one
row.  `dumps` models `json.dumps` of the metadata.  `.error` carries the
Python exception message; on error the stored table is unchanged (the
caller keeps `table`). -/
def addMessage (embed : List Char → List ℚ) (dumps : Md → List Char)
    (vectorDim : Nat) (table : List Row) (m : Message) :
    Except (List Char) (List Row) :=
  let vector := embed m.content
  if vector.length ≠ vectorDim then
    .error ("Vector dimension mismatch. Expected ".toList
      ++ (toString vectorDim).toList ++ ", got ".toList
      ++ (toString vector.length).toList)
  else
    .ok (table ++ [Row.mk m.id m.content m.userId m.timestamp
      (dumps m.metadata) vector])

/-- Python `dict` assignment `d[k] = v` on an insertion-ordered map
modelled as an association list: overwrite in place when the key exists,
else append. -/
def dictSet (k : String) (v : α) (d : List (String × α)) : List (String × α) :=
  if d.any fun p => p.1 = k then
    d.map fun p => if p.1 = k then (k, v) else p
  else d ++ [(k, v)]

/-- `topic_registry.add_topic` (topic_registry.py:22-47): the same topic
object is stored twice, under a freshly generated UUID and under the given
name.  The UUID is passed explicitly (`uuid.uuid4()` is modelled by the
caller supplying a fresh key). -/
def addTopic (uuid name : String) (topic : α) (reg : List (String × α)) :
    List (String × α) :=
  dictSet name topic (dictSet uuid topic reg)

/-- Registering a batch of topics through `add_topic`, starting from the
empty registry; each entry is `(uuid, name, topic)`. -/
def buildRegistry (entries : List (String × String × α)) : List (String × α) :=
  entries.foldl (fun reg e => addTopic e.1 e.2.1 e.2.2 reg) []

/-- Sum of the character codes of a text (`sum(ord(c) for c in text)`,
embeddings.py:88). -/
def charCodeSum (text : List Char) : Nat := (text.map Char.toNat).sum

/-- Modelled from the spec: `np.random.seed(seed)` followed by
`np.random.rand(dimension)` — the numpy PRNG is an external library, not
part of this repository, so the draw is modelled as a deterministic linear
congruential generator producing rationals in [0,1).  Only determinism in
the seed and the [0,1) range are relied on. -/
def lcgNext (s : Nat) : Nat := (1103515245 * s + 12345) % 4294967296

/-- Modelled from the spec: the `dimension`-many draws of the seeded PRNG
(see `lcgNext`). -/
def npRandomRand : Nat → Nat → List ℚ
  | _, 0 => []
  | s, n + 1 => ((lcgNext s : ℚ) / 4294967296) :: npRandomRand (lcgNext s) n

/-- `EmbeddingGenerator._generate_fallback` (embeddings.py:78-91): seed the
PRNG with the character-code sum of the text, draw `dimension` floats in
[0,1). -/
def generateFallback (dimension : Nat) (text : List Char) : List ℚ :=
  npRandomRand (charCodeSum text) dimension

/-- `EmbeddingGenerator.generate` (embeddings.py:17-52): the configured
backend is modelled by `backend`, returning `none` when it is unavailable
(missing credentials, missing dependency) or errors; every such case falls
back to the deterministic `generateFallback` vector, so `generate` is total
— it always returns a vector. -/
def generateEmbedding (backend : List Char → Option (List ℚ)) (dimension : Nat)
    (text : List Char) : List ℚ :=
  match backend text with
  | some v => v
  | none => generateFallback dimension text

/-! ## Helper lemmas -/

theorem listContainsSub_eq (n h : List Char) :
    listContainsSub n h = decide (n <:+: h) := by
  unfold listContainsSub
  cases hd : decide (n <:+: h) with
  | true =>
    have hi : n <:+: h := of_decide_eq_true hd
    obtain ⟨t, hpre, hsuf⟩ := List.infix_iff_prefix_suffix.mp hi
    exact List.any_eq_true.mpr
      ⟨t, (List.mem_tails t h).mpr hsuf, List.isPrefixOf_iff_prefix.mpr hpre⟩
  | false =>
    have hi : ¬ n <:+: h := of_decide_eq_false hd
    refine List.any_eq_false.mpr fun t ht hp => hi ?_
    exact List.infix_iff_prefix_suffix.mpr
      ⟨t, List.isPrefixOf_iff_prefix.mp hp, (List.mem_tails t h).mp ht⟩

theorem listContains_eq_decideMem (a : List Char) (l : List (List Char)) :
    l.contains a = decide (a ∈ l) := by
  cases hd : decide (a ∈ l) with
  | true => simpa using of_decide_eq_true hd
  | false =>
    have := of_decide_eq_false hd
    simpa using this

/-! ## C3 -/

/-- C3: counterexample.  For `content = "say hello"` and `query = "hello "`
(trailing space), the code scores 0 — the single-word branch tests whether
the whole string `"hello "` is one of the content's words — while the
claim's reference definition scores 1, since the query's single
whitespace-split word `"hello"` does occur as a whole word of the
content. -/
theorem textSearchScore_spec_counterexample :
    textSearchScore "say hello".toList "hello ".toList = 0 ∧
    textScoreSpec "say hello".toList "hello ".toList = 1 ∧
    textSearchScore "say hello".toList "hello ".toList ≠
      textScoreSpec "say hello".toList "hello ".toList := by
  exact ⟨by decide, by decide, by decide⟩

/-- C3 (amended): `_text_search_score` equals the reference definition with
the single-word clause amended to compare the full lowercased query string
(rather than its extracted word) against the content's whitespace-split
words: substring ⇒ 1.0 at position 0 / 0.9 otherwise; single-word query ⇒
1.0 iff the query string occurs verbatim among the content's words;
multi-word ⇒ matched-word ratio, 0.0 when none match. -/
theorem textSearchScore_eq_specAmended (content query : List Char) :
    textSearchScore content query = textScoreSpecAmended content query := by
  unfold textSearchScore textScoreSpecAmended
  by_cases hinf : pyLower query <:+: pyLower content
  · by_cases hpre : pyLower query <+: pyLower content
    · simp [listContainsSub_eq, hinf, hpre, List.isPrefixOf_iff_prefix]
    · simp [listContainsSub_eq, hinf, hpre, List.isPrefixOf_iff_prefix]
  · have hpre : ¬ pyLower query <+: pyLower content := by
      intro hp
      rcases hp with ⟨tail, htail⟩
      exact hinf ⟨[], tail, by simpa using htail⟩
    have hfil : (pyWords (pyLower query)).filter
        (fun w => decide (w ∈ pyWords (pyLower content)))
        = (pyWords (pyLower query)).filter
          (fun w => (pyWords (pyLower content)).contains w) := by
      apply List.filter_congr
      intro w _
      rw [listContains_eq_decideMem]
    simp only [listContainsSub_eq, decide_eq_true_eq, if_neg hinf, if_neg hpre]
    by_cases hone : (pyWords (pyLower query)).length = 1
    · simp only [if_pos hone, listContains_eq_decideMem, decide_eq_true_eq]
    · simp only [if_neg hone]
      rw [hfil]
      rcases Nat.eq_zero_or_pos ((pyWords (pyLower query)).filter
          (fun w => (pyWords (pyLower content)).contains w)).length with hz | hp
      · have hnlt : ¬ 0 < ((pyWords (pyLower query)).filter
            (fun w => (pyWords (pyLower content)).contains w)).length := by omega
        rw [if_neg hnlt, if_pos hz]
      · rw [if_pos hp, if_neg (Nat.pos_iff_ne_zero.mp hp)]

/-! ## C8 -/

theorem npRandomRand_length (s n : Nat) : (npRandomRand s n).length = n := by
  induction n generalizing s with
  | zero => rfl
  | succ n ih => simp [npRandomRand, ih]

theorem npRandomRand_mem_range (s n : Nat) :
    ∀ x ∈ npRandomRand s n, 0 ≤ x ∧ x < 1 := by
  induction n generalizing s with
  | zero => intro x hx; cases hx
  | succ n ih =>
    intro x hx
    rw [npRandomRand] at hx
    rcases List.mem_cons.mp hx with hx | hx
    · subst hx
      constructor
      · positivity
      · rw [div_lt_one (by norm_num)]
        have hlt : lcgNext s < 4294967296 := Nat.mod_lt _ (by norm_num)
        exact_mod_cast hlt
    · exact ih _ x hx

/-- C8: when the configured backend is unavailable (modelled by `backend`
returning `none`: missing credentials, missing dependency or a backend
error, embeddings.py:30-52), `generate` returns the deterministic fallback
vector: the PRNG seeded with the character-code sum of the text, drawing
`dimension` values in [0,1); the fallback depends on the text only through
that seed (so equal texts — indeed equal code sums — give identical vectors
within a process), and a vector of length `dimension` is always returned. -/
theorem generate_unavailable_fallback (backend : List Char → Option (List ℚ))
    (dimension : Nat) (text : List Char) (h : backend text = none) :
    generateEmbedding backend dimension text = generateFallback dimension text ∧
    generateFallback dimension text = npRandomRand (charCodeSum text) dimension ∧
    (∀ t₁ t₂ : List Char, charCodeSum t₁ = charCodeSum t₂ →
      generateFallback dimension t₁ = generateFallback dimension t₂) ∧
    (generateFallback dimension text).length = dimension ∧
    (∀ x ∈ generateFallback dimension text, 0 ≤ x ∧ x < 1) := by
  refine ⟨?_, rfl, ?_, ?_, ?_⟩
  · unfold generateEmbedding
    rw [h]
  · intro t₁ t₂ hseed
    unfold generateFallback
    rw [hseed]
  · exact npRandomRand_length _ _
  · exact npRandomRand_mem_range _ _

/-- C8 witness: a concretely unavailable backend at a concrete text. -/
theorem generate_unavailable_fallback_witness :
    (fun _ : List Char => (none : Option (List ℚ))) "abc".toList = none ∧
    generateEmbedding (fun _ => none) 3 "abc".toList
      = generateFallback 3 "abc".toList ∧
    (generateFallback 3 "abc".toList).length = 3 := by
  have h := generate_unavailable_fallback (fun _ => none) 3 "abc".toList rfl
  exact ⟨rfl, h.1, h.2.2.2.1⟩

/-! ## C5 -/

theorem mem_getMessages (parse : List Char → Option Md) (valid : Row → Bool)
    (rows : List Row) (limit : Nat) (msg : Message) :
    msg ∈ getMessages parse valid rows limit →
    ∃ r ∈ rows, valid r = true ∧ msg = rowToMessage parse r := by
  intro h
  unfold getMessages at h
  obtain ⟨r, hr, hmap⟩ := List.mem_filterMap.mp h
  have hr' : r ∈ rows := by
    have h1 : r ∈ List.insertionSort tsGe rows :=
      (List.take_sublist _ _).subset hr
    exact (List.perm_insertionSort tsGe rows).mem_iff.mp h1
  by_cases hv : valid r
  · rw [if_pos hv] at hmap
    exact ⟨r, hr', hv, (Option.some.inj hmap).symm⟩
  · rw [if_neg hv] at hmap
    cases hmap

/-- C5: when the generated embedding's length differs from the topic's
configured dimension, `add_message` raises the dimension-mismatch
`ValueError` (storage.py:187-190) which propagates; no row is appended (the
error is raised before `table.add`), the table is unchanged, and — provided
no stored row already carried the same id — the message is not retrievable
from the store afterward. -/
theorem addMessage_dimension_mismatch (embed : List Char → List ℚ)
    (dumps : Md → List Char) (vectorDim : Nat) (table : List Row)
    (m : Message) (parse : List Char → Option Md) (valid : Row → Bool)
    (limit : Nat)
    (hdim : (embed m.content).length ≠ vectorDim)
    (hfresh : ∀ r ∈ table, r.id ≠ m.id) :
    (∃ emsg, addMessage embed dumps vectorDim table m = .error emsg) ∧
    (∀ table', addMessage embed dumps vectorDim table m ≠ .ok table') ∧
    (∀ msgOut ∈ getMessages parse valid table limit, msgOut.id ≠ m.id) := by
  have herr : ∃ emsg, addMessage embed dumps vectorDim table m = .error emsg := by
    unfold addMessage
    exact ⟨_, if_pos hdim⟩
  obtain ⟨emsg, herr'⟩ := herr
  refine ⟨⟨emsg, herr'⟩, ?_, ?_⟩
  · intro table' hok
    rw [herr'] at hok
    cases hok
  · intro msgOut hmem
    obtain ⟨r, hr, _, hconv⟩ := mem_getMessages parse valid table limit msgOut hmem
    rw [hconv]
    exact hfresh r hr

/-- C5 witness: a 2-dimensional embedding against a 3-dimensional topic. -/
theorem addMessage_dimension_mismatch_witness :
    ((fun _ : List Char => [(1 : ℚ), 2]) ("hi".toList)).length ≠ 3 ∧
    (∀ r ∈ ([] : List Row), r.id ≠ "m1".toList) ∧
    (∃ emsg, addMessage (fun _ => [(1 : ℚ), 2]) (fun _ => "x".toList) 3 []
      (Message.mk "m1".toList "hi".toList "u1".toList 0 []) = .error emsg) ∧
    (∀ table', addMessage (fun _ => [(1 : ℚ), 2]) (fun _ => "x".toList) 3 []
      (Message.mk "m1".toList "hi".toList "u1".toList 0 []) ≠ .ok table') := by
  have h := addMessage_dimension_mismatch (fun _ => [(1 : ℚ), 2])
    (fun _ => "x".toList) 3 []
    (Message.mk "m1".toList "hi".toList "u1".toList 0 [])
    (fun _ => none) (fun _ => true) 5 (by decide) (by decide)
  exact ⟨by decide, by decide, h.1, h.2.1⟩

/-! ## C2 -/

/-- C2: if some stored message's text score against the query is strictly
above 0.8, `search_messages` returns up to `limit` of exactly those
messages in storage order, and the vector stage is skipped entirely: the
result does not depend on the embedding generator or on the vector metric
(so no query embedding and no similarity is ever used). -/
theorem search_exact_match_short_circuit (embed : List Char → List ℚ)
    (dist : List ℚ → List ℚ → ℚ) (parse : List Char → Option Md)
    (rows : List Row) (query : List Char) (limit : Nat)
    (h : ∃ r ∈ rows, (8 : ℚ)/10 < textSearchScore r.content query) :
    searchMessages embed dist parse rows query limit
      = ((rows.filter fun r =>
          (8 : ℚ)/10 < textSearchScore r.content query).take limit).map
            (rowToMessage parse) ∧
    ∀ (embed' : List Char → List ℚ) (dist' : List ℚ → List ℚ → ℚ),
      searchMessages embed' dist' parse rows query limit
        = searchMessages embed dist parse rows query limit := by
  obtain ⟨r, hr, hscore⟩ := h
  have hne : rows ≠ [] := List.ne_nil_of_mem hr
  have hexne : (rows.map fun x => (x, textSearchScore x.content query)).filter
      (fun p => (8 : ℚ)/10 < p.2) ≠ [] := by
    apply List.ne_nil_of_mem (a := (r, textSearchScore r.content query))
    apply List.mem_filter.mpr
    exact ⟨List.mem_map.mpr ⟨r, hr, rfl⟩, by simpa using hscore⟩
  have key : ∀ (e : List Char → List ℚ) (d : List ℚ → List ℚ → ℚ),
      searchMessages e d parse rows query limit
        = ((rows.filter fun x =>
            (8 : ℚ)/10 < textSearchScore x.content query).take limit).map
              (rowToMessage parse) := by
    intro e d
    unfold searchMessages
    rw [if_neg hne, if_pos hexne, List.filter_map, List.map_take,
      List.map_map, List.map_take]
    rfl
  exact ⟨key embed dist, fun e' d' => (key e' d').trans (key embed dist).symm⟩

/-- C2 witness: spec scenario A — contents "cats are great" and
"dogs are great", query "cats": the first row scores 1.0 > 0.8 and is
returned by the exact-match tier in storage order. -/
theorem search_exact_match_short_circuit_witness :
    (∃ r ∈ [Row.mk "m1".toList "cats are great".toList "u1".toList 0
        "x".toList [0],
      Row.mk "m2".toList "dogs are great".toList "u1".toList 1
        "x".toList [0]],
      (8 : ℚ)/10 < textSearchScore r.content "cats".toList) ∧
    searchMessages (fun _ => [0]) (fun _ _ => 0) (fun _ => none)
      [Row.mk "m1".toList "cats are great".toList "u1".toList 0
        "x".toList [0],
       Row.mk "m2".toList "dogs are great".toList "u1".toList 1
        "x".toList [0]] "cats".toList 10
      = (([Row.mk "m1".toList "cats are great".toList "u1".toList 0
            "x".toList [0],
          Row.mk "m2".toList "dogs are great".toList "u1".toList 1
            "x".toList [0]].filter fun r =>
          (8 : ℚ)/10 < textSearchScore r.content "cats".toList).take 10).map
            (rowToMessage (fun _ => none)) := by
  have hex : ∃ r ∈ [Row.mk "m1".toList "cats are great".toList "u1".toList 0
        "x".toList [0],
      Row.mk "m2".toList "dogs are great".toList "u1".toList 1
        "x".toList [0]],
      (8 : ℚ)/10 < textSearchScore r.content "cats".toList := by
    with_unfolding_all decide
  exact ⟨hex, (search_exact_match_short_circuit _ _ _ _ _ _ hex).1⟩
/-! ## C9 -/

theorem filterMap_ite_eq (p : α → Bool) (f : α → β) (l : List α) :
    (l.filterMap fun x => if p x then some (f x) else none)
      = (l.filter p).map f := by
  induction l with
  | nil => rfl
  | cons a l ih =>
    by_cases h : p a
    · simp [List.filterMap_cons, List.filter_cons, h, ih]
    · simp [List.filterMap_cons, List.filter_cons, h, ih]

/-- C9: `get_messages` returns the stored rows sorted by timestamp
descending and truncated to at most `limit` entries; a row whose metadata
fails JSON decoding (`parse` gives `none`) but deserializes is returned
with the empty metadata document; a row that fails to deserialize into a
`Message` (`valid` false) is skipped individually, the rest of the fetch
surviving. -/
theorem getMessages_props (parse : List Char → Option Md) (valid : Row → Bool)
    (rows : List Row) (limit : Nat) :
    (getMessages parse valid rows limit).length ≤ limit ∧
    (getMessages parse valid rows limit).Sorted msgTsGe ∧
    getMessages parse valid rows limit
      = (((List.insertionSort tsGe rows).take limit).filter valid).map
          (rowToMessage parse) ∧
    (∀ r ∈ (List.insertionSort tsGe rows).take limit, valid r = true →
      parse r.metadata = none →
        rowToMessage parse r ∈ getMessages parse valid rows limit ∧
        (rowToMessage parse r).metadata = []) := by
  have heq : getMessages parse valid rows limit
      = (((List.insertionSort tsGe rows).take limit).filter valid).map
          (rowToMessage parse) := by
    unfold getMessages
    exact filterMap_ite_eq valid (rowToMessage parse) _
  refine ⟨?_, ?_, heq, ?_⟩
  · calc (getMessages parse valid rows limit).length
        ≤ ((List.insertionSort tsGe rows).take limit).length := by
          unfold getMessages
          exact List.length_filterMap_le _ _
      _ ≤ limit := List.length_take_le _ _
  · rw [heq]
    have hs : ((List.insertionSort tsGe rows).take limit).Pairwise tsGe :=
      (List.sorted_insertionSort tsGe rows).sublist (List.take_sublist _ _)
    have hsf : (((List.insertionSort tsGe rows).take limit).filter
        valid).Pairwise tsGe :=
      hs.sublist (List.filter_sublist _)
    exact (List.pairwise_map).mpr (hsf.imp fun h => h)
  · intro r hr hv hparse
    constructor
    · rw [heq]
      exact List.mem_map.mpr ⟨r, List.mem_filter.mpr ⟨hr, hv⟩, rfl⟩
    · unfold rowToMessage
      rw [hparse]
      rfl

/-- C9 witness: three concrete rows — timestamps 8, 5, 3 — where the
timestamp-5 row has undecodable metadata (returned with `{}`) and the
timestamp-3 row fails deserialization (skipped). -/
theorem getMessages_props_witness :
    ((getMessages
        (fun s => if s = "ok".toList then some [("a", "b")] else none)
        (fun r => r.userId ≠ "bad".toList)
        [Row.mk "m1".toList "c1".toList "u1".toList 5 "zz".toList [0],
         Row.mk "m2".toList "c2".toList "bad".toList 3 "ok".toList [0],
         Row.mk "m3".toList "c3".toList "u1".toList 8 "ok".toList [0]]
        2).length ≤ 2) ∧
    (Row.mk "m1".toList "c1".toList "u1".toList 5 "zz".toList [0] ∈
      (List.insertionSort tsGe
        [Row.mk "m1".toList "c1".toList "u1".toList 5 "zz".toList [0],
         Row.mk "m2".toList "c2".toList "bad".toList 3 "ok".toList [0],
         Row.mk "m3".toList "c3".toList "u1".toList 8 "ok".toList [0]]).take 2) ∧
    (rowToMessage (fun s => if s = "ok".toList then some [("a", "b")] else none)
        (Row.mk "m1".toList "c1".toList "u1".toList 5 "zz".toList [0])).metadata
      = [] := by
  have h := getMessages_props
    (fun s => if s = "ok".toList then some [("a", "b")] else none)
    (fun r => r.userId ≠ "bad".toList)
    [Row.mk "m1".toList "c1".toList "u1".toList 5 "zz".toList [0],
     Row.mk "m2".toList "c2".toList "bad".toList 3 "ok".toList [0],
     Row.mk "m3".toList "c3".toList "u1".toList 8 "ok".toList [0]]
    2
  refine ⟨h.1, by decide, ?_⟩
  exact (h.2.2.2 (Row.mk "m1".toList "c1".toList "u1".toList 5 "zz".toList [0])
    (by decide) (by decide) (by decide)).2

/-! ## C4 -/

/-- C4: counterexample.  Store ["aaa" with vector [1], "bbb" with vector
[2]], query "qqq" (text score 0 for both rows), metric giving distance 9/10
to vector [1] and 0 to vector [2] (both values are attainable cosine
distances).  The pandas column assignment aligns the distance-sorted result
positionally, so the first stored row receives distance 0 (final score
3/10, kept) and the second receives 9/10 (final 3/100, dropped) — the code
returns the *first* message, while the claim's per-message scoring would
keep and return the *second*. -/
theorem search_vector_stage_counterexample :
    searchMessages (fun _ => [0])
        (fun _ v => if v = [(1 : ℚ)] then 9/10 else 0) (fun _ => none)
        [Row.mk "m1".toList "aaa".toList "u1".toList 0 "x".toList [1],
         Row.mk "m2".toList "bbb".toList "u1".toList 1 "x".toList [2]]
        "qqq".toList 10
      = [rowToMessage (fun _ => none)
          (Row.mk "m1".toList "aaa".toList "u1".toList 0 "x".toList [1])] ∧
    searchMessagesAligned (fun _ => [0])
        (fun _ v => if v = [(1 : ℚ)] then 9/10 else 0) (fun _ => none)
        [Row.mk "m1".toList "aaa".toList "u1".toList 0 "x".toList [1],
         Row.mk "m2".toList "bbb".toList "u1".toList 1 "x".toList [2]]
        "qqq".toList 10
      = [rowToMessage (fun _ => none)
          (Row.mk "m2".toList "bbb".toList "u1".toList 1 "x".toList [2])] ∧
    searchMessages (fun _ => [0])
        (fun _ v => if v = [(1 : ℚ)] then 9/10 else 0) (fun _ => none)
        [Row.mk "m1".toList "aaa".toList "u1".toList 0 "x".toList [1],
         Row.mk "m2".toList "bbb".toList "u1".toList 1 "x".toList [2]]
        "qqq".toList 10
      ≠ searchMessagesAligned (fun _ => [0])
        (fun _ v => if v = [(1 : ℚ)] then 9/10 else 0) (fun _ => none)
        [Row.mk "m1".toList "aaa".toList "u1".toList 0 "x".toList [1],
         Row.mk "m2".toList "bbb".toList "u1".toList 1 "x".toList [2]]
        "qqq".toList 10 := by
  refine ⟨?_, ?_, ?_⟩ <;> with_unfolding_all decide

/-- C4 (amended): when no stored message scores strictly above 0.8, the
vector stage computes `finalScore = textScore*0.7 + vectorScore*0.3`, where
the `vectorScore` assigned to the message at position i in storage order is
one minus the i-th *smallest* distance over the whole store (positional
alignment of the distance column, `vectorFinals`); it keeps exactly the
rows with `finalScore >= 0.1`, sorts them descending by final score,
returns at most `limit` of them, and an empty store yields `[]`. -/
theorem search_vector_stage_amended (embed : List Char → List ℚ)
    (dist : List ℚ → List ℚ → ℚ) (parse : List Char → Option Md)
    (rows : List Row) (query : List Char) (limit : Nat)
    (h : ∀ r ∈ rows, textSearchScore r.content query ≤ (8 : ℚ)/10) :
    searchMessages embed dist parse [] query limit = [] ∧
    (searchMessages embed dist parse rows query limit).length ≤ limit ∧
    ∃ ranked : List (Row × ℚ),
      ranked.Perm ((vectorFinals embed dist rows query).filter
        fun p => (1 : ℚ)/10 ≤ p.2) ∧
      ranked.Sorted scoreGe ∧
      searchMessages embed dist parse rows query limit
        = (ranked.take limit).map fun p => rowToMessage parse p.1 := by
  rcases eq_or_ne rows [] with hnil | hne
  · subst hnil
    have hsm : searchMessages embed dist parse [] query limit = [] := by
      simp [searchMessages]
    refine ⟨hsm, ?_, [], ?_, List.sorted_nil, ?_⟩
    · rw [hsm]
      simp
    · simp [vectorFinals]
    · rw [hsm]
      simp
  · have hexact : (rows.map fun x => (x, textSearchScore x.content query)).filter
        (fun p => (8 : ℚ)/10 < p.2) = [] := by
      apply List.filter_eq_nil_iff.mpr
      intro p hp
      obtain ⟨r, hr, rfl⟩ := List.mem_map.mp hp
      simpa using not_lt.mpr (h r hr)
    have heq : searchMessages embed dist parse rows query limit
        = ((List.insertionSort scoreGe
            ((vectorFinals embed dist rows query).filter
              fun p => (1 : ℚ)/10 ≤ p.2)).take limit).map
                fun p => rowToMessage parse p.1 := by
      unfold searchMessages
      rw [if_neg hne, hexact, if_neg (not_not_intro rfl)]
    refine ⟨rfl, ?_, List.insertionSort scoreGe
      ((vectorFinals embed dist rows query).filter
        fun p => (1 : ℚ)/10 ≤ p.2), List.perm_insertionSort _ _,
      List.sorted_insertionSort _ _, heq⟩
    rw [heq]
    calc (((List.insertionSort scoreGe
          ((vectorFinals embed dist rows query).filter
            fun p => (1 : ℚ)/10 ≤ p.2)).take limit).map
              fun p => rowToMessage parse p.1).length
        = ((List.insertionSort scoreGe
            ((vectorFinals embed dist rows query).filter
              fun p => (1 : ℚ)/10 ≤ p.2)).take limit).length :=
          List.length_map _ _
      _ ≤ limit := List.length_take_le _ _

/-- C4 witness: a single stored row with text score 0 and distance 0: final
score 3/10 clears the threshold and the row is returned. -/
theorem search_vector_stage_amended_witness :
    (∀ r ∈ [Row.mk "m3".toList "aaa".toList "u1".toList 0 "x".toList [0]],
      textSearchScore r.content "qqq".toList ≤ (8 : ℚ)/10) ∧
    (∃ ranked : List (Row × ℚ),
      ranked.Perm ((vectorFinals (fun _ => [0]) (fun _ _ => 0)
        [Row.mk "m3".toList "aaa".toList "u1".toList 0 "x".toList [0]]
        "qqq".toList).filter fun p => (1 : ℚ)/10 ≤ p.2) ∧
      ranked.Sorted scoreGe ∧
      searchMessages (fun _ => [0]) (fun _ _ => 0) (fun _ => none)
        [Row.mk "m3".toList "aaa".toList "u1".toList 0 "x".toList [0]]
        "qqq".toList 10
        = (ranked.take 10).map fun p => rowToMessage (fun _ => none) p.1) := by
  have hh : ∀ r ∈ [Row.mk "m3".toList "aaa".toList "u1".toList 0
      "x".toList [0]],
      textSearchScore r.content "qqq".toList ≤ (8 : ℚ)/10 := by
    with_unfolding_all decide
  exact ⟨hh, (search_vector_stage_amended (fun _ => [0]) (fun _ _ => 0)
    (fun _ => none) _ "qqq".toList 10 hh).2.2⟩

/-! ## C1 -/

/-- C1: counterexample.  When tier 1 succeeds but returns zero rows, the
code returns the empty sequence immediately (storage.py:362-366) — it does
*not* try tiers 2 and 3.  Here the full scan, which the claim says would
still be attempted, would have found the user's message. -/
theorem getByUser_tier1_empty_counterexample :
    getMessagesByUser (fun _ => none) (fun _ => true) (.ok []) (.ok [])
        [Row.mk "m1".toList "c1".toList "u7".toList 0 "x".toList [0]]
        "u7".toList 10
      = [] ∧
    fullScanByUser (fun _ => none) (fun _ => true)
        [Row.mk "m1".toList "c1".toList "u7".toList 0 "x".toList [0]]
        "u7".toList 10 ≠ [] := by
  exact ⟨rfl, by decide⟩

/-- C1 (amended): the fallback chain of `get_messages_by_user` is: a tier-1
*error* (only) causes tier 2 to be attempted, and a tier-2 error *or* a
tier-2 success with zero rows causes the full scan (tier 3); but a tier-1
success with zero rows returns the empty sequence immediately, without
consulting tier 2 or tier 3 (the result is then independent of them).  The
full scan fetches up to 1000 recent rows, filters by `userId` in memory and
truncates to `limit`. -/
theorem getByUser_fallback_chain (parse : List Char → Option Md)
    (valid : Row → Bool) (recentRows : List Row) (userId : List Char)
    (limit : Nat) (e e' : Unit) (df : List Row) :
    (∀ (t2' : Except Unit (List Row)) (recent' : List Row),
      getMessagesByUser parse valid (.ok []) t2' recent' userId limit = []) ∧
    (df ≠ [] → ∀ (t2' : Except Unit (List Row)) (recent' : List Row),
      getMessagesByUser parse valid (.ok df) t2' recent' userId limit
        = df.filterMap (processRowTier1 parse valid)) ∧
    (df ≠ [] →
      getMessagesByUser parse valid (.error e) (.ok df) recentRows userId limit
        = df.filterMap (processRowTier2 parse valid)) ∧
    (getMessagesByUser parse valid (.error e) (.ok []) recentRows userId limit
        = fullScanByUser parse valid recentRows userId limit) ∧
    (getMessagesByUser parse valid (.error e) (.error e') recentRows userId
        limit
        = fullScanByUser parse valid recentRows userId limit) ∧
    (fullScanByUser parse valid recentRows userId limit).length ≤ limit ∧
    (∀ m ∈ fullScanByUser parse valid recentRows userId limit,
      m.userId = userId) := by
  refine ⟨?_, ?_, ?_, ?_, ?_, ?_, ?_⟩
  · intro t2' recent'
    simp [getMessagesByUser]
  · intro hdf t2' recent'
    simp [getMessagesByUser, hdf]
  · intro hdf
    simp [getMessagesByUser, hdf]
  · simp [getMessagesByUser]
  · rfl
  · unfold fullScanByUser
    exact List.length_take_le _ _
  · intro m hm
    unfold fullScanByUser at hm
    have hm' := List.mem_of_mem_take hm
    have := (List.mem_filter.mp hm').2
    simpa using this

/-- C1 witness: concrete instantiation — a tier-1 success with one row
returns that row's message without consulting the other tiers. -/
theorem getByUser_fallback_chain_witness :
    ([Row.mk "m9".toList "c9".toList "u9".toList 0 "x".toList [0]] ≠
      ([] : List Row)) ∧
    getMessagesByUser (fun _ => none) (fun _ => true)
        (.ok [Row.mk "m9".toList "c9".toList "u9".toList 0 "x".toList [0]])
        (.error ()) [] "u9".toList 10
      = [Row.mk "m9".toList "c9".toList "u9".toList 0 "x".toList
          [0]].filterMap (processRowTier1 (fun _ => none) (fun _ => true)) ∧
    getMessagesByUser (fun _ => none) (fun _ => true) (.ok [])
        (.error ()) [] "u9".toList 10 = [] := by
  have h := getByUser_fallback_chain (fun _ => none) (fun _ => true)
    [] "u9".toList 10 () ()
    [Row.mk "m9".toList "c9".toList "u9".toList 0 "x".toList [0]]
  exact ⟨by decide, h.2.1 (by decide) (.error ()) [], h.1 (.error ()) []⟩

/-! ## C6 -/

theorem countLoop1_cons_ok (u : List Char) (lim : Nat) (nm : String)
    (t : TopicM) (rest : List (String × TopicM)) (acc : Nat)
    (msgs : List Message) (h : t.byUser u (lim + 1) = .ok msgs) :
    countLoop1 u lim ((nm, t) :: rest) acc
      = if lim ≤ acc + msgs.length then .error (acc + msgs.length)
        else countLoop1 u lim rest (acc + msgs.length) := by
  simp [countLoop1, h]

theorem countLoop1_cons_error (u : List Char) (lim : Nat) (nm : String)
    (t : TopicM) (rest : List (String × TopicM)) (acc : Nat)
    (h : t.byUser u (lim + 1) = .error ()) :
    countLoop1 u lim ((nm, t) :: rest) acc = countLoop1 u lim rest acc := by
  simp [countLoop1, h]

theorem manualLoop_cons_ok (u : List Char) (lim : Nat) (nm : String)
    (t : TopicM) (rest : List (String × TopicM)) (mc : Nat)
    (msgs : List Message) (h : t.recent 1000 = .ok msgs) :
    manualLoop u lim ((nm, t) :: rest) mc
      = if lim ≤ mc + (msgs.filter fun m => m.userId = u).length then
          .error (mc + (msgs.filter fun m => m.userId = u).length)
        else manualLoop u lim rest
          (mc + (msgs.filter fun m => m.userId = u).length) := by
  simp [manualLoop, h]

theorem manualLoop_cons_error (u : List Char) (lim : Nat) (nm : String)
    (t : TopicM) (rest : List (String × TopicM)) (mc : Nat)
    (h : t.recent 1000 = .error ()) :
    manualLoop u lim ((nm, t) :: rest) mc = manualLoop u lim rest mc := by
  simp [manualLoop, h]

theorem countLoop1_append (u : List Char) (lim : Nat)
    (xs ys : List (String × TopicM)) (acc : Nat) :
    countLoop1 u lim (xs ++ ys) acc
      = match countLoop1 u lim xs acc with
        | .error n => .error n
        | .ok t => countLoop1 u lim ys t := by
  induction xs generalizing acc with
  | nil => simp [countLoop1]
  | cons hd tl ih =>
    obtain ⟨nm, t⟩ := hd
    rw [List.cons_append]
    cases hbu : t.byUser u (lim + 1) with
    | error uu =>
      cases uu
      rw [countLoop1_cons_error u lim nm t (tl ++ ys) acc hbu,
        countLoop1_cons_error u lim nm t tl acc hbu, ih]
    | ok msgs =>
      rw [countLoop1_cons_ok u lim nm t (tl ++ ys) acc msgs hbu,
        countLoop1_cons_ok u lim nm t tl acc msgs hbu]
      by_cases hl : lim ≤ acc + msgs.length
      · simp [hl]
      · simp [hl, ih]

theorem manualLoop_append (u : List Char) (lim : Nat)
    (xs ys : List (String × TopicM)) (mc : Nat) :
    manualLoop u lim (xs ++ ys) mc
      = match manualLoop u lim xs mc with
        | .error n => .error n
        | .ok t => manualLoop u lim ys t := by
  induction xs generalizing mc with
  | nil => simp [manualLoop]
  | cons hd tl ih =>
    obtain ⟨nm, t⟩ := hd
    rw [List.cons_append]
    cases hbu : t.recent 1000 with
    | error uu =>
      cases uu
      rw [manualLoop_cons_error u lim nm t (tl ++ ys) mc hbu,
        manualLoop_cons_error u lim nm t tl mc hbu, ih]
    | ok msgs =>
      rw [manualLoop_cons_ok u lim nm t (tl ++ ys) mc msgs hbu,
        manualLoop_cons_ok u lim nm t tl mc msgs hbu]
      by_cases hl : lim ≤ mc + (msgs.filter fun m => m.userId = u).length
      · simp [hl]
      · simp [hl, ih]

theorem countLoop1_error_ge (u : List Char) (lim : Nat)
    (ts : List (String × TopicM)) (acc n : Nat)
    (h : countLoop1 u lim ts acc = .error n) : lim ≤ n := by
  induction ts generalizing acc with
  | nil => cases h
  | cons hd tl ih =>
    obtain ⟨nm, t⟩ := hd
    cases hbu : t.byUser u (lim + 1) with
    | error uu =>
      cases uu
      rw [countLoop1_cons_error u lim nm t tl acc hbu] at h
      exact ih acc h
    | ok msgs =>
      rw [countLoop1_cons_ok u lim nm t tl acc msgs hbu] at h
      by_cases hl : lim ≤ acc + msgs.length
      · rw [if_pos hl] at h
        cases h
        exact hl
      · rw [if_neg hl] at h
        exact ih _ h

theorem manualLoop_error_ge (u : List Char) (lim : Nat)
    (ts : List (String × TopicM)) (acc n : Nat)
    (h : manualLoop u lim ts acc = .error n) : lim ≤ n := by
  induction ts generalizing acc with
  | nil => cases h
  | cons hd tl ih =>
    obtain ⟨nm, t⟩ := hd
    cases hbu : t.recent 1000 with
    | error uu =>
      cases uu
      rw [manualLoop_cons_error u lim nm t tl acc hbu] at h
      exact ih acc h
    | ok msgs =>
      rw [manualLoop_cons_ok u lim nm t tl acc msgs hbu] at h
      by_cases hl : lim ≤ acc + (msgs.filter fun m => m.userId = u).length
      · rw [if_pos hl] at h
        cases h
        exact hl
      · rw [if_neg hl] at h
        exact ih _ h

theorem countLoop1_ok_sum (u : List Char) (lim : Nat)
    (ts : List (String × TopicM)) (acc tot : Nat)
    (h : countLoop1 u lim ts acc = .ok tot) :
    tot = acc + (ts.map fun p => byUserLen u (lim + 1) p.2).sum := by
  induction ts generalizing acc with
  | nil =>
    cases h
    simp
  | cons hd tl ih =>
    obtain ⟨nm, t⟩ := hd
    cases hbu : t.byUser u (lim + 1) with
    | error uu =>
      cases uu
      rw [countLoop1_cons_error u lim nm t tl acc hbu] at h
      have := ih acc h
      simp [byUserLen, hbu, this]
    | ok msgs =>
      rw [countLoop1_cons_ok u lim nm t tl acc msgs hbu] at h
      by_cases hl : lim ≤ acc + msgs.length
      · rw [if_pos hl] at h
        cases h
      · rw [if_neg hl] at h
        have := ih _ h
        simp only [List.map_cons, List.sum_cons, byUserLen, hbu, this]
        omega

theorem countLoop1_ok_of_lt (u : List Char) (lim : Nat)
    (ts : List (String × TopicM)) (acc : Nat)
    (h : acc + (ts.map fun p => byUserLen u (lim + 1) p.2).sum < lim) :
    countLoop1 u lim ts acc
      = .ok (acc + (ts.map fun p => byUserLen u (lim + 1) p.2).sum) := by
  induction ts generalizing acc with
  | nil => simp [countLoop1]
  | cons hd tl ih =>
    obtain ⟨nm, t⟩ := hd
    have hsum : (((nm, t) :: tl).map fun p => byUserLen u (lim + 1) p.2).sum
        = byUserLen u (lim + 1) t
          + (tl.map fun p => byUserLen u (lim + 1) p.2).sum := by
      simp
    cases hbu : t.byUser u (lim + 1) with
    | error uu =>
      cases uu
      rw [countLoop1_cons_error u lim nm t tl acc hbu, hsum]
      have hbul : byUserLen u (lim + 1) t = 0 := by simp [byUserLen, hbu]
      rw [hbul]
      have h' : acc + (tl.map fun p => byUserLen u (lim + 1) p.2).sum < lim := by
        rw [hsum, hbul] at h
        omega
      rw [ih acc h']
      congr 1
      omega
    | ok msgs =>
      have hbul : byUserLen u (lim + 1) t = msgs.length := by
        simp [byUserLen, hbu]
      rw [countLoop1_cons_ok u lim nm t tl acc msgs hbu]
      have hnl : ¬ lim ≤ acc + msgs.length := by
        rw [hsum, hbul] at h
        omega
      rw [if_neg hnl]
      have h' : acc + msgs.length
          + (tl.map fun p => byUserLen u (lim + 1) p.2).sum < lim := by
        rw [hsum, hbul] at h
        omega
      rw [ih _ h', hsum, hbul]
      congr 1
      omega

theorem countUserMessages_eq (ts : List (String × TopicM)) (cl : Nat)
    (u : List Char) (tl : Option Nat) :
    countUserMessages ts cl u tl
      = match countLoop1 u (tl.getD cl) ts 0 with
        | .error n => n
        | .ok total =>
          if tl.getD cl ≤ total + 2 then
            match manualLoop u (tl.getD cl) ts 0 with
            | .error mc => mc
            | .ok _ => total
          else total := rfl

/-- C6: counterexample.  One topic, limit 5, no override: `getByUser`
reports 4 messages (optimistic total 4, no early return, within 2 of the
limit), the manual pass finds 5 — the manual count *equals* the limit, it
does not exceed it, yet the code returns the manual count 5
(`manual_count >= current_limit`, message_service.py:110-114) where the
claim's reading returns the optimistic total 4. -/
theorem countUserMessages_spec_counterexample :
    countUserMessages
        [("t", TopicM.mk
          (fun _ _ => .ok [Message.mk "a1".toList "c".toList "u".toList 0 [],
            Message.mk "a2".toList "c".toList "u".toList 0 [],
            Message.mk "a3".toList "c".toList "u".toList 0 [],
            Message.mk "a4".toList "c".toList "u".toList 0 []])
          (fun _ => .ok [Message.mk "a1".toList "c".toList "u".toList 0 [],
            Message.mk "a2".toList "c".toList "u".toList 0 [],
            Message.mk "a3".toList "c".toList "u".toList 0 [],
            Message.mk "a4".toList "c".toList "u".toList 0 [],
            Message.mk "a5".toList "c".toList "u".toList 0 []]))]
        5 "u".toList none = 5 ∧
    countUserMessagesSpec
        [("t", TopicM.mk
          (fun _ _ => .ok [Message.mk "a1".toList "c".toList "u".toList 0 [],
            Message.mk "a2".toList "c".toList "u".toList 0 [],
            Message.mk "a3".toList "c".toList "u".toList 0 [],
            Message.mk "a4".toList "c".toList "u".toList 0 []])
          (fun _ => .ok [Message.mk "a1".toList "c".toList "u".toList 0 [],
            Message.mk "a2".toList "c".toList "u".toList 0 [],
            Message.mk "a3".toList "c".toList "u".toList 0 [],
            Message.mk "a4".toList "c".toList "u".toList 0 [],
            Message.mk "a5".toList "c".toList "u".toList 0 []]))]
        5 "u".toList none = 4 := by
  exact ⟨rfl, rfl⟩

/-- C6 (amended): `countUserMessages` resolves the active limit (override
when supplied, else the configured limit); iterates the topics in registry
order summing `getByUser(userId, limit+1)` lengths, returning the running
total as soon as it reaches the limit; skips topics whose calls raise; and
when the loop completes with the total within 2 of the limit it runs the
manual pass, which itself returns the running manual count as soon as that
count *reaches or exceeds* the limit (checked after each topic); a manual
pass completing below the limit — and a total not within 2 of the limit —
leave the optimistic total as the result. -/
theorem countUserMessages_amended :
    (∀ (ts : List (String × TopicM)) (cl : Nat) (u : List Char) (l : Nat),
      countUserMessages ts cl u (some l) = countUserMessages ts l u none) ∧
    (∀ (pre post : List (String × TopicM)) (nm : String) (t : TopicM)
        (u : List Char) (lim tot : Nat) (msgs : List Message),
      countLoop1 u lim pre 0 = .ok tot →
      t.byUser u (lim + 1) = .ok msgs →
      lim ≤ tot + msgs.length →
      countUserMessages (pre ++ (nm, t) :: post) lim u none
        = tot + msgs.length) ∧
    (∀ (pre post : List (String × TopicM)) (nm : String) (bad : TopicM)
        (u : List Char) (lim : Nat),
      bad.byUser u (lim + 1) = .error () →
      bad.recent 1000 = .error () →
      countUserMessages (pre ++ (nm, bad) :: post) lim u none
        = countUserMessages (pre ++ post) lim u none) ∧
    (∀ (ts : List (String × TopicM)) (u : List Char) (lim tot mc : Nat),
      countLoop1 u lim ts 0 = .ok tot →
      lim ≤ tot + 2 →
      manualLoop u lim ts 0 = .error mc →
      countUserMessages ts lim u none = mc ∧ lim ≤ mc) ∧
    (∀ (ts : List (String × TopicM)) (u : List Char) (lim tot mc : Nat),
      countLoop1 u lim ts 0 = .ok tot →
      manualLoop u lim ts 0 = .ok mc →
      countUserMessages ts lim u none = tot) ∧
    (∀ (ts : List (String × TopicM)) (u : List Char) (lim n : Nat),
      countLoop1 u lim ts 0 = .error n →
      countUserMessages ts lim u none = n ∧ lim ≤ n) := by
  refine ⟨?_, ?_, ?_, ?_, ?_, ?_⟩
  · intro ts cl u l
    rfl
  · intro pre post nm t u lim tot msgs h1 h2 h3
    rw [countUserMessages_eq]
    simp only [Option.getD_none]
    rw [countLoop1_append]
    simp only [h1, countLoop1_cons_ok u lim nm t post tot msgs h2, if_pos h3]
  · intro pre post nm bad u lim h1 h2
    have hc : ∀ acc, countLoop1 u lim (pre ++ (nm, bad) :: post) acc
        = countLoop1 u lim (pre ++ post) acc := by
      intro acc
      rw [countLoop1_append, countLoop1_append]
      cases countLoop1 u lim pre acc with
      | error n => rfl
      | ok t => exact countLoop1_cons_error u lim nm bad post t h1
    have hm : ∀ mc, manualLoop u lim (pre ++ (nm, bad) :: post) mc
        = manualLoop u lim (pre ++ post) mc := by
      intro mc
      rw [manualLoop_append, manualLoop_append]
      cases manualLoop u lim pre mc with
      | error n => rfl
      | ok t => exact manualLoop_cons_error u lim nm bad post t h2
    rw [countUserMessages_eq, countUserMessages_eq]
    simp only [Option.getD_none]
    rw [hc 0, hm 0]
  · intro ts u lim tot mc h1 h2 h3
    constructor
    · rw [countUserMessages_eq]
      simp only [Option.getD_none, h1, if_pos h2, h3]
    · exact manualLoop_error_ge u lim ts 0 mc h3
  · intro ts u lim tot mc h1 h2
    rw [countUserMessages_eq]
    simp only [Option.getD_none, h1, h2]
    by_cases hl : lim ≤ tot + 2
    · rw [if_pos hl]
    · rw [if_neg hl]
  · intro ts u lim n h1
    constructor
    · rw [countUserMessages_eq]
      simp only [Option.getD_none, h1]
    · exact countLoop1_error_ge u lim ts 0 n h1

/-- C6 witness: a single topic successfully reporting 6 messages against
limit 5 triggers the early return with the running total 6; the override
resolution is also instantiated. -/
theorem countUserMessages_amended_witness :
    countUserMessages [] 7 "u".toList (some 3)
      = countUserMessages [] 3 "u".toList none ∧
    countLoop1 "u".toList 5 ([] : List (String × TopicM)) 0 = .ok 0 ∧
    (TopicM.mk (fun _ _ => .ok (List.replicate 6
        (Message.mk "a".toList "c".toList "u".toList 0 [])))
      (fun _ => .error ())).byUser "u".toList 6
      = .ok (List.replicate 6
        (Message.mk "a".toList "c".toList "u".toList 0 [])) ∧
    5 ≤ 0 + (List.replicate 6
      (Message.mk "a".toList "c".toList "u".toList 0 [])).length ∧
    countUserMessages [("t", TopicM.mk (fun _ _ => .ok (List.replicate 6
        (Message.mk "a".toList "c".toList "u".toList 0 [])))
      (fun _ => .error ()))] 5 "u".toList none = 6 := by
  have h := countUserMessages_amended
  refine ⟨h.1 [] 7 "u".toList 3, rfl, rfl, by decide, ?_⟩
  exact h.2.1 [] [] "t"
    (TopicM.mk (fun _ _ => .ok (List.replicate 6
        (Message.mk "a".toList "c".toList "u".toList 0 [])))
      (fun _ => .error ()))
    "u".toList 5 0
    (List.replicate 6 (Message.mk "a".toList "c".toList "u".toList 0 []))
    rfl rfl (by decide)

/-! ## C7 -/

theorem addMessageEndpoint_eq (topics : List (String × TopicM))
    (cl : Nat) (tl : Option Nat) (m : Message) (store : List Message) :
    addMessageEndpoint topics cl tl m store
      = if tl.getD cl ≤ countUserMessages topics cl m.userId tl
        then .error 429 else .ok (store ++ [m]) := rfl

/-- C7: the write path evaluates `count_user_messages(userId)` immediately
before appending; whenever the count reaches or exceeds the active limit
the add is rejected with HTTP 429 and the message is not appended
(main.py:207-217); below the limit the message is appended.  In
particular, with limit 5 and the topics' `getByUser(userId, 6)` calls
accounting for 5 existing messages of the user, a 6th add is rejected. -/
theorem addMessage_gate :
    (∀ (topics : List (String × TopicM)) (configLimit : Nat)
        (testLimit : Option Nat) (m : Message) (store : List Message),
      testLimit.getD configLimit ≤
        countUserMessages topics configLimit m.userId testLimit →
      addMessageEndpoint topics configLimit testLimit m store = .error 429 ∧
      ∀ store', addMessageEndpoint topics configLimit testLimit m store
        ≠ .ok store') ∧
    (∀ (topics : List (String × TopicM)) (m : Message) (store : List Message),
      (topics.map fun p => byUserLen m.userId 6 p.2).sum = 5 →
      addMessageEndpoint topics 5 none m store = .error 429) ∧
    (∀ (topics : List (String × TopicM)) (configLimit : Nat)
        (testLimit : Option Nat) (m : Message) (store : List Message),
      countUserMessages topics configLimit m.userId testLimit <
        testLimit.getD configLimit →
      addMessageEndpoint topics configLimit testLimit m store
        = .ok (store ++ [m])) := by
  have gate : ∀ (topics : List (String × TopicM)) (cl : Nat)
      (tl : Option Nat) (m : Message) (store : List Message),
      tl.getD cl ≤ countUserMessages topics cl m.userId tl →
      addMessageEndpoint topics cl tl m store = .error 429 := by
    intro topics cl tl m store h
    rw [addMessageEndpoint_eq, if_pos h]
  refine ⟨fun topics cl tl m store h => ⟨gate _ _ _ _ _ h, ?_⟩, ?_, ?_⟩
  · intro store' hok
    rw [gate _ _ _ _ _ h] at hok
    cases hok
  · intro topics m store hsum
    apply gate
    simp only [Option.getD_none]
    rw [countUserMessages_eq]
    simp only [Option.getD_none]
    cases hc : countLoop1 m.userId 5 topics 0 with
    | error n => simpa using countLoop1_error_ge _ _ _ _ _ hc
    | ok tot =>
      have h6 : (5 : Nat) + 1 = 6 := rfl
      have h1 := countLoop1_ok_sum _ _ _ _ _ hc
      rw [h6, hsum] at h1
      have htot : tot = 5 := by omega
      subst htot
      cases hm : manualLoop m.userId 5 topics 0 with
      | error mc => simpa using manualLoop_error_ge _ _ _ _ _ hm
      | ok a => simp
  · intro topics cl tl m store h
    rw [addMessageEndpoint_eq, if_neg (not_le.mpr h)]

/-- C7 witness: spec scenario B — limit 5, one topic holding the user's 5
messages, a 6th add by that user is rejected with 429. -/
theorem addMessage_gate_witness :
    (([("t", TopicM.mk (fun _ _ => .ok (List.replicate 5
        (Message.mk "a".toList "c".toList "u".toList 0 [])))
      (fun _ => .error ()))].map fun p =>
        byUserLen (Message.mk "a6".toList "c6".toList "u".toList 0
          []).userId 6 p.2).sum = 5) ∧
    addMessageEndpoint [("t", TopicM.mk (fun _ _ => .ok (List.replicate 5
        (Message.mk "a".toList "c".toList "u".toList 0 [])))
      (fun _ => .error ()))] 5 none
      (Message.mk "a6".toList "c6".toList "u".toList 0 []) []
      = .error 429 := by
  refine ⟨by decide, ?_⟩
  exact addMessage_gate.2.1
    [("t", TopicM.mk (fun _ _ => .ok (List.replicate 5
        (Message.mk "a".toList "c".toList "u".toList 0 [])))
      (fun _ => .error ()))]
    (Message.mk "a6".toList "c6".toList "u".toList 0 []) [] (by decide)

/-! ## C10 -/

theorem dictSet_fresh (k : String) (v : α) (d : List (String × α))
    (h : ∀ p ∈ d, p.1 ≠ k) : dictSet k v d = d ++ [(k, v)] := by
  have hb : (d.any fun p => p.1 = k) = false :=
    List.any_eq_false.mpr fun p hp => by simpa using h p hp
  unfold dictSet
  rw [if_neg (by simp [hb])]

theorem foldl_addTopic_eq (entries : List (String × String × α))
    (d : List (String × α))
    (h : ((d.map Prod.fst)
      ++ entries.flatMap fun e => [e.1, e.2.1]).Nodup) :
    entries.foldl (fun reg e => addTopic e.1 e.2.1 e.2.2 reg) d
      = d ++ entries.flatMap fun e => [(e.1, e.2.2), (e.2.1, e.2.2)] := by
  induction entries generalizing d with
  | nil => simp
  | cons e rest ih =>
    obtain ⟨u, n, t⟩ := e
    have hK : ((u, n, t) :: rest).flatMap (fun e => [e.1, e.2.1])
        = u :: n :: rest.flatMap (fun e => [e.1, e.2.1]) := by
      simp
    rw [hK] at h
    rcases List.nodup_append.mp h with ⟨hd, htail, hdisj⟩
    have hu_not_d : ∀ p ∈ d, p.1 ≠ u := by
      intro p hp he
      exact hdisj (List.mem_map_of_mem Prod.fst hp) (by simp [he])
    have hn_not_d : ∀ p ∈ d, p.1 ≠ n := by
      intro p hp he
      exact hdisj (List.mem_map_of_mem Prod.fst hp) (by simp [he])
    have hun : u ≠ n := by
      rcases List.nodup_cons.mp htail with ⟨hu_mem, _⟩
      intro he
      exact hu_mem (by simp [he])
    have hstep : addTopic u n t d = d ++ [(u, t), (n, t)] := by
      unfold addTopic
      rw [dictSet_fresh u t d hu_not_d, dictSet_fresh n t _ ?_]
      · simp
      · intro p hp
        rcases List.mem_append.mp hp with hp | hp
        · exact hn_not_d p hp
        · have : p = (u, t) := by simpa using hp
          rw [this]
          exact hun
    rw [List.foldl_cons, hstep, ih]
    · simp
    · have h' : (((d.map Prod.fst) ++ [u, n])
          ++ rest.flatMap fun e => [e.1, e.2.1]).Nodup := by
        rw [List.append_assoc]
        exact h
      simpa using h'

theorem sum_map_flatMapPair (l : List (String × String × TopicM))
    (f : TopicM → Nat) :
    ((l.flatMap fun e => [(e.1, e.2.2), (e.2.1, e.2.2)]).map
      fun p => f p.2).sum
      = 2 * (l.map fun e => f e.2.2).sum := by
  induction l with
  | nil => rfl
  | cons e rest ih =>
    simp only [List.flatMap_cons, List.map_append, List.sum_append,
      List.map_cons, List.sum_cons, List.map_nil, List.sum_nil, ih]
    omega

theorem length_flatMapPair (l : List (String × String × TopicM)) :
    (l.flatMap fun e => [(e.1, e.2.2), (e.2.1, e.2.2)]).length
      = 2 * l.length := by
  induction l with
  | nil => rfl
  | cons e rest ih =>
    simp only [List.flatMap_cons, List.length_append, List.length_cons,
      List.length_nil, ih]
    omega

/-- C10: `add_topic` stores the same topic object under two keys — the
fresh UUID and the name — so registering n topics with fresh, pairwise
distinct keys yields a registry of 2n entries listing every topic twice
(once under each key, in insertion order), and the per-topic loop of
`count_user_messages` visits every topic twice: with the limit far enough
away that neither the early return nor the manual pass triggers, the
returned count is exactly twice the per-topic user-message total. -/
theorem addTopic_double_registration
    (entries : List (String × String × TopicM)) (u : List Char) (lim : Nat)
    (hkeys : (entries.flatMap fun e => [e.1, e.2.1]).Nodup)
    (hsmall : 2 * (entries.map fun e => byUserLen u (lim + 1) e.2.2).sum + 2
      < lim) :
    buildRegistry entries
      = (entries.flatMap fun e => [(e.1, e.2.2), (e.2.1, e.2.2)]) ∧
    (buildRegistry entries).length = 2 * entries.length ∧
    countUserMessages (buildRegistry entries) lim u none
      = 2 * (entries.map fun e => byUserLen u (lim + 1) e.2.2).sum := by
  have h1 : buildRegistry entries
      = entries.flatMap fun e => [(e.1, e.2.2), (e.2.1, e.2.2)] := by
    unfold buildRegistry
    rw [foldl_addTopic_eq entries [] (by simpa using hkeys)]
    rfl
  refine ⟨h1, ?_, ?_⟩
  · rw [h1]
    exact length_flatMapPair entries
  · have hsum : ((buildRegistry entries).map
        fun p => byUserLen u (lim + 1) p.2).sum
        = 2 * (entries.map fun e => byUserLen u (lim + 1) e.2.2).sum := by
      rw [h1]
      exact sum_map_flatMapPair entries _
    have hlt : 0 + ((buildRegistry entries).map
        fun p => byUserLen u (lim + 1) p.2).sum < lim := by
      omega
    rw [countUserMessages_eq]
    simp only [Option.getD_none,
      countLoop1_ok_of_lt u lim (buildRegistry entries) 0 hlt]
    rw [if_neg (by omega)]
    omega

/-- C10 witness: two topics registered through `add_topic` with fresh keys
give a 4-entry registry and a doubled count (each topic reports one message
of the user, the count comes back as 4 against limit 20). -/
theorem addTopic_double_registration_witness :
    (([("id1", "alpha", TopicM.mk
        (fun _ _ => .ok [Message.mk "a".toList "c".toList "u".toList 0 []])
        (fun _ => .error ())),
      ("id2", "beta", TopicM.mk
        (fun _ _ => .ok [Message.mk "b".toList "c".toList "u".toList 0 []])
        (fun _ => .error ()))] :
        List (String × String × TopicM)).flatMap
          fun e => [e.1, e.2.1]).Nodup ∧
    (buildRegistry
      [("id1", "alpha", TopicM.mk
        (fun _ _ => .ok [Message.mk "a".toList "c".toList "u".toList 0 []])
        (fun _ => .error ())),
       ("id2", "beta", TopicM.mk
        (fun _ _ => .ok [Message.mk "b".toList "c".toList "u".toList 0 []])
        (fun _ => .error ()))]).length = 4 ∧
    countUserMessages (buildRegistry
      [("id1", "alpha", TopicM.mk
        (fun _ _ => .ok [Message.mk "a".toList "c".toList "u".toList 0 []])
        (fun _ => .error ())),
       ("id2", "beta", TopicM.mk
        (fun _ _ => .ok [Message.mk "b".toList "c".toList "u".toList 0 []])
        (fun _ => .error ()))]) 20 "u".toList none = 4 := by
  have h := addTopic_double_registration
    [("id1", "alpha", TopicM.mk
        (fun _ _ => .ok [Message.mk "a".toList "c".toList "u".toList 0 []])
        (fun _ => .error ())),
     ("id2", "beta", TopicM.mk
        (fun _ _ => .ok [Message.mk "b".toList "c".toList "u".toList 0 []])
        (fun _ => .error ()))]
    "u".toList 20 (by decide) (by decide)
  exact ⟨by decide, h.2.1, h.2.2⟩


end Locavox
